import Mathlib

/-!
Verification development for the market-data-simulator repository
(src/market_data_client.cc, src/market_data_server.cc).

The C++ containers `std::map<K, V>` are embedded as association lists
strictly sorted by key (`mapSet`, `mapErase`, `mapFind`, invariant
`MapSorted`).  The client reconciler (MarketDataClient::SubscribeToMarketData,
read-loop body, lines 75-121) becomes the pure state transformer
`applyUpdate` on `ClientState`; the server read loop
(MarketDataServiceImpl::Subscribe, lines 90-179) becomes the step function
`serverStep` on per-instrument `SubEntry` records together with the
teardown function `teardownAll`; the unsynchronized `stream->Write` calls
become the micro interleaving model `wstep`/`wrun`.
-/

/-- Association-list embedding of `std::map` sorted insertion:
`m[k] = v` (operator[] followed by assignment) inserts the key at its
ordered position or overwrites the value at an existing key. -/
def mapSet {α β : Type} [LinearOrder α] : List (α × β) → α → β → List (α × β)
  | [], k, v => [(k, v)]
  | (k1, v1) :: rest, k, v =>
    if k < k1 then (k, v) :: (k1, v1) :: rest
    else if k = k1 then (k, v) :: rest
    else (k1, v1) :: mapSet rest k v

/-- Association-list embedding of `std::map::erase(key)`: removes the
entry with the given key if present, otherwise leaves the list unchanged. -/
def mapErase {α β : Type} [DecidableEq α] : List (α × β) → α → List (α × β)
  | [], _ => []
  | (k1, v1) :: rest, k => if k = k1 then rest else (k1, v1) :: mapErase rest k

/-- Association-list embedding of `std::map::find`: the value stored at a
key, if any. -/
def mapFind {α β : Type} [DecidableEq α] : List (α × β) → α → Option β
  | [], _ => none
  | (k1, v1) :: rest, k => if k = k1 then some v1 else mapFind rest k

/-- The representation invariant of the `std::map` embedding: keys are
strictly increasing along the list (hence unique). -/
abbrev MapSorted {α β : Type} [LinearOrder α] (m : List (α × β)) : Prop :=
  List.Pairwise (fun x y => x.1 < y.1) m

theorem find_mapSet_self {α β : Type} [LinearOrder α] (m : List (α × β)) (k : α) (v : β) :
    mapFind (mapSet m k v) k = some v := by
  induction m with
  | nil => simp [mapSet, mapFind]
  | cons hd tl ih =>
    obtain ⟨k1, v1⟩ := hd
    by_cases h1 : k < k1
    · simp [mapSet, mapFind, h1]
    · by_cases h2 : k = k1
      · simp [mapSet, mapFind, h1, h2]
      · simp [mapSet, mapFind, h1, h2, ih]

theorem find_mapSet_ne {α β : Type} [LinearOrder α] (m : List (α × β)) (k k2 : α) (v : β)
    (h : k2 ≠ k) : mapFind (mapSet m k v) k2 = mapFind m k2 := by
  induction m with
  | nil => simp [mapSet, mapFind, h]
  | cons hd tl ih =>
    obtain ⟨k1, v1⟩ := hd
    by_cases h1 : k < k1
    · simp [mapSet, mapFind, h1, h]
    · by_cases h2 : k = k1
      · subst h2
        simp [mapSet, mapFind, h1, h]
      · simp only [mapSet, if_neg h1, if_neg h2, mapFind]
        by_cases h3 : k2 = k1
        · simp [h3]
        · simp [h3, ih]

theorem mem_mapSet {α β : Type} [LinearOrder α] {m : List (α × β)} {k : α} {v : β}
    {x : α × β} (hx : x ∈ mapSet m k v) : x = (k, v) ∨ x ∈ m := by
  induction m with
  | nil => simpa [mapSet] using hx
  | cons hd tl ih =>
    obtain ⟨k1, v1⟩ := hd
    by_cases h1 : k < k1
    · simp only [mapSet, if_pos h1, List.mem_cons] at hx
      rcases hx with h | h | h
      · exact Or.inl h
      · exact Or.inr (by simp [h])
      · exact Or.inr (by simp [h])
    · by_cases h2 : k = k1
      · simp only [mapSet, if_neg h1, if_pos h2, List.mem_cons] at hx
        rcases hx with h | h
        · exact Or.inl h
        · exact Or.inr (by simp [h])
      · simp only [mapSet, if_neg h1, if_neg h2, List.mem_cons] at hx
        rcases hx with h | h
        · exact Or.inr (by simp [h])
        · rcases ih h with h3 | h3
          · exact Or.inl h3
          · exact Or.inr (by simp [h3])

theorem mapSet_sorted {α β : Type} [LinearOrder α] {m : List (α × β)} (k : α) (v : β)
    (hm : MapSorted m) : MapSorted (mapSet m k v) := by
  induction m with
  | nil => simp [mapSet, MapSorted]
  | cons hd tl ih =>
    obtain ⟨k1, v1⟩ := hd
    rw [MapSorted, List.pairwise_cons] at hm
    obtain ⟨hhd, htl⟩ := hm
    by_cases h1 : k < k1
    · rw [MapSorted, mapSet, if_pos h1]
      refine List.Pairwise.cons ?_ (List.Pairwise.cons hhd htl)
      intro x hx
      rcases List.mem_cons.mp hx with h | h
      · simpa [h] using h1
      · exact lt_trans h1 (hhd x h)
    · by_cases h2 : k = k1
      · rw [MapSorted, mapSet, if_neg h1, if_pos h2]
        refine List.Pairwise.cons ?_ htl
        intro x hx
        simpa [h2] using hhd x hx
      · rw [MapSorted, mapSet, if_neg h1, if_neg h2]
        refine List.Pairwise.cons ?_ (ih htl)
        intro x hx
        rcases mem_mapSet hx with h | h
        · have hk1 : k1 < k := by
            rcases lt_trichotomy k k1 with h3 | h3 | h3
            · exact absurd h3 h1
            · exact absurd h3 h2
            · exact h3
          simpa [h] using hk1
        · exact hhd x h

theorem mapErase_sublist {α β : Type} [DecidableEq α] (m : List (α × β)) (k : α) :
    List.Sublist (mapErase m k) m := by
  induction m with
  | nil => simp [mapErase]
  | cons hd tl ih =>
    obtain ⟨k1, v1⟩ := hd
    by_cases h : k = k1
    · simp only [mapErase, if_pos h]
      exact List.sublist_cons_self (k1, v1) tl
    · simpa [mapErase, h] using List.Sublist.cons₂ (k1, v1) ih

theorem mapErase_sorted {α β : Type} [LinearOrder α] {m : List (α × β)} (k : α)
    (hm : MapSorted m) : MapSorted (mapErase m k) :=
  List.Pairwise.sublist (mapErase_sublist m k) hm

theorem find_none_of_forall_ne {α β : Type} [DecidableEq α] {m : List (α × β)} {k : α}
    (h : ∀ x ∈ m, x.1 ≠ k) : mapFind m k = none := by
  induction m with
  | nil => simp [mapFind]
  | cons hd tl ih =>
    obtain ⟨k1, v1⟩ := hd
    have h1 : k ≠ k1 := fun hk => (h (k1, v1) (by simp)) hk.symm
    simp only [mapFind, if_neg h1]
    exact ih (fun x hx => h x (by simp [hx]))

theorem find_mapErase_self {α β : Type} [LinearOrder α] {m : List (α × β)} (k : α)
    (hm : MapSorted m) : mapFind (mapErase m k) k = none := by
  induction m with
  | nil => simp [mapErase, mapFind]
  | cons hd tl ih =>
    obtain ⟨k1, v1⟩ := hd
    rw [MapSorted, List.pairwise_cons] at hm
    obtain ⟨hhd, htl⟩ := hm
    by_cases h : k = k1
    · rw [mapErase, if_pos h]
      refine find_none_of_forall_ne (fun x hx => ?_)
      have := hhd x hx
      rw [h]
      exact ne_of_gt this
    · rw [mapErase, if_neg h]
      simp only [mapFind, if_neg h]
      exact ih htl

theorem find_mapErase_ne {α β : Type} [DecidableEq α] (m : List (α × β)) (k k2 : α)
    (h : k2 ≠ k) : mapFind (mapErase m k) k2 = mapFind m k2 := by
  induction m with
  | nil => simp [mapErase]
  | cons hd tl ih =>
    obtain ⟨k1, v1⟩ := hd
    by_cases h1 : k = k1
    · subst h1
      simp [mapErase, mapFind, h]
    · simp only [mapErase, if_neg h1, mapFind]
      by_cases h2 : k2 = k1
      · simp [h2]
      · simp [h2, ih]

theorem mapErase_of_find_none {α β : Type} [DecidableEq α] {m : List (α × β)} {k : α}
    (h : mapFind m k = none) : mapErase m k = m := by
  induction m with
  | nil => simp [mapErase]
  | cons hd tl ih =>
    obtain ⟨k1, v1⟩ := hd
    simp only [mapFind] at h
    by_cases h1 : k = k1
    · simp [h1] at h
    · simp only [if_neg h1] at h
      simp [mapErase, h1, ih h]

theorem mapSet_mapSet_self {α β : Type} [LinearOrder α] (m : List (α × β)) (k : α) (v : β) :
    mapSet (mapSet m k v) k v = mapSet m k v := by
  induction m with
  | nil => simp [mapSet]
  | cons hd tl ih =>
    obtain ⟨k1, v1⟩ := hd
    by_cases h1 : k < k1
    · simp [mapSet, h1, lt_irrefl]
    · by_cases h2 : k = k1
      · simp [mapSet, h1, h2, lt_irrefl]
      · simp [mapSet, h1, h2, ih]

theorem find_mem {α β : Type} [DecidableEq α] {m : List (α × β)} {k : α} {v : β}
    (h : mapFind m k = some v) : (k, v) ∈ m := by
  induction m with
  | nil => simp [mapFind] at h
  | cons hd tl ih =>
    obtain ⟨k1, v1⟩ := hd
    simp only [mapFind] at h
    by_cases h1 : k = k1
    · simp only [if_pos h1] at h
      simp [h1, ← Option.some_inj.mp h]
    · simp only [if_neg h1] at h
      exact List.mem_cons_of_mem _ (ih h)

/-- Association-list embedding of `std::map` insertion for the maps keyed
by instrument id: the entry is overwritten in place when the key exists
and appended otherwise.  The programs never observe the key order of
these maps, only lookups, so the embedding keys them by equality. -/
def omapSet {β : Type} : List (String × β) → String → β → List (String × β)
  | [], k, v => [(k, v)]
  | (k1, v1) :: rest, k, v =>
    if k = k1 then (k, v) :: rest else (k1, v1) :: omapSet rest k v

theorem find_omapSet_self {β : Type} (m : List (String × β)) (k : String) (v : β) :
    mapFind (omapSet m k v) k = some v := by
  induction m with
  | nil => simp [omapSet, mapFind]
  | cons hd tl ih =>
    obtain ⟨k1, v1⟩ := hd
    by_cases h : k = k1
    · simp [omapSet, mapFind, h]
    · simp [omapSet, mapFind, h, ih]

theorem find_omapSet_ne {β : Type} (m : List (String × β)) (k k2 : String) (v : β)
    (h : k2 ≠ k) : mapFind (omapSet m k v) k2 = mapFind m k2 := by
  induction m with
  | nil => simp [omapSet, mapFind, h]
  | cons hd tl ih =>
    obtain ⟨k1, v1⟩ := hd
    by_cases h1 : k = k1
    · subst h1
      simp [omapSet, mapFind, h]
    · simp only [omapSet, if_neg h1, mapFind]
      by_cases h2 : k2 = k1
      · simp [h2]
      · simp [h2, ih]

theorem mem_omapSet {β : Type} {m : List (String × β)} {k : String} {v : β}
    {x : String × β} (hx : x ∈ omapSet m k v) : x = (k, v) ∨ x ∈ m := by
  induction m with
  | nil => simpa [omapSet] using hx
  | cons hd tl ih =>
    obtain ⟨k1, v1⟩ := hd
    by_cases h : k = k1
    · simp only [omapSet, if_pos h, List.mem_cons] at hx
      rcases hx with h2 | h2
      · exact Or.inl h2
      · exact Or.inr (by simp [h2])
    · simp only [omapSet, if_neg h, List.mem_cons] at hx
      rcases hx with h2 | h2
      · exact Or.inr (by simp [h2])
      · rcases ih h2 with h3 | h3
        · exact Or.inl h3
        · exact Or.inr (by simp [h3])

theorem omapSet_omapSet_self {β : Type} (m : List (String × β)) (k : String) (v : β) :
    omapSet (omapSet m k v) k v = omapSet m k v := by
  induction m with
  | nil => simp [omapSet]
  | cons hd tl ih =>
    obtain ⟨k1, v1⟩ := hd
    by_cases h : k = k1
    · simp [omapSet, h]
    · simp [omapSet, h, ih]

theorem find_mapValues {α β : Type} [DecidableEq α] (m : List (α × β)) (f : β → β) (k : α) :
    mapFind (m.map (fun kv => (kv.1, f kv.2))) k = (mapFind m k).map f := by
  induction m with
  | nil => simp [mapFind]
  | cons hd tl ih =>
    obtain ⟨k1, v1⟩ := hd
    by_cases h : k = k1
    · simp [mapFind, h]
    · simp [mapFind, h, ih]

/-- Wire-level price level, from the protobuf message PriceLevel
{ price: double, quantity: double } used by both programs.  Prices and
quantities are embedded as exact rationals; the client performs no
arithmetic on them, only comparison with 0 and use as map keys. -/
structure PriceLevel where
  price : Rat
  quantity : Rat
deriving DecidableEq

/-- Wire-level MarketDataUpdate: the tagged union of OrderBookSnapshot and
OrderBookIncrementalUpdate, each carrying an instrument id and per-side
lists of price levels. -/
inductive ClientMsg where
  | snapshot (id : String) (bids asks : List PriceLevel)
  | incremental (id : String) (bidUpdates askUpdates : List PriceLevel)
deriving DecidableEq

/-- One side of an order book: the inner `std::map<double, double>`
(price to quantity). -/
abbrev Side := List (Rat × Rat)

/-- Client reconciler state: the two outer maps
`order_books_bids_` and `order_books_asks_` of MarketDataClient
(`std::map<std::string, std::map<double, double>>`). -/
structure ClientState where
  bids : List (String × Side)
  asks : List (String × Side)
deriving DecidableEq

/-- Snapshot side rebuild, client lines 83-91: after `clear()` the side is
repopulated by `book[level.price] = level.quantity` for each level in
message order. -/
def buildSide (levels : List PriceLevel) : Side :=
  levels.foldl (fun b l => mapSet b l.price l.quantity) []

/-- Incremental side application, client lines 102-118: for each changed
level in message order, `if (quantity > 0) book[price] = quantity; else
book.erase(price)`. -/
def applyChanges (b : Side) (us : List PriceLevel) : Side :=
  us.foldl (fun b l => if 0 < l.quantity then mapSet b l.price l.quantity else mapErase b l.price) b

/-- Snapshot branch of the client read loop (lines 77-93): both sides for
the instrument are cleared and rebuilt from the message; `operator[]` on
the outer maps creates the per-instrument entries when absent. -/
def applySnapshot (st : ClientState) (id : String) (bids asks : List PriceLevel) : ClientState :=
  { bids := omapSet st.bids id (buildSide bids),
    asks := omapSet st.asks id (buildSide asks) }

/-- Incremental branch of the client read loop (lines 95-120):
`operator[]` on the outer maps fetches the instrument side, creating an
empty one when absent, and the changed levels are folded over it. -/
def applyIncremental (st : ClientState) (id : String) (bus aus : List PriceLevel) : ClientState :=
  { bids := omapSet st.bids id (applyChanges ((mapFind st.bids id).getD []) bus),
    asks := omapSet st.asks id (applyChanges ((mapFind st.asks id).getD []) aus) }

/-- One iteration of the client read loop (lines 75-121) on a received
MarketDataUpdate. -/
def applyUpdate (st : ClientState) : ClientMsg → ClientState
  | .snapshot id bids asks => applySnapshot st id bids asks
  | .incremental id bus aus => applyIncremental st id bus aus

/-- Client state at start-up: both outer maps empty. -/
def initClient : ClientState := { bids := [], asks := [] }

/-- Specification-side characterization of one incremental message on one
price key, following the claim wording: entries are scanned in message
order, the last entry for the price wins, a positive quantity leaves that
quantity, a non-positive one leaves the key absent, and a price not
mentioned keeps its prior lookup result. -/
def specLastChange (us : List PriceLevel) (p : Rat) (start : Option Rat) : Option Rat :=
  us.foldl
    (fun acc l => if l.price = p then (if 0 < l.quantity then some l.quantity else none) else acc)
    start

/-- Decidable check that every level of one book side has quantity > 0. -/
def sidePos (b : Side) : Bool := b.all (fun l => decide (0 < l.2))

/-- Decidable check that every side stored in an outer map satisfies
`sidePos`. -/
def booksPos (m : List (String × Side)) : Bool := m.all (fun kv => sidePos kv.2)

/-- Decidable check of the spec invariant "no entry has quantity ≤ 0" over
the whole client state. -/
def clientPos (st : ClientState) : Bool := booksPos st.bids && booksPos st.asks

/-- Decidable check that every level of a message side list has
quantity > 0. -/
def levelsPos (ls : List PriceLevel) : Bool := ls.all (fun l => decide (0 < l.quantity))

/-- Messages whose application the client code guards against non-positive
quantities: incremental updates are always safe (the code tests
`quantity > 0` itself); a snapshot is safe when all its levels are
positive (the code copies snapshot levels unchecked). -/
def msgPos : ClientMsg → Bool
  | .snapshot _ bids asks => levelsPos bids && levelsPos asks
  | .incremental _ _ _ => true

/-- Per-instrument server-side subscription entry on one connection: the
`update_threads[id]` thread object together with `stop_signals[id]`
(server lines 84-85).  `live` is whether the thread function
StreamIncrementalUpdates is still running; `joined` is whether the thread
object has been joined (std::thread::joinable() is the negation of this
while the entry exists, regardless of whether the function has returned);
`stopFlag` is the atomic stop signal; `count` is the thread-local
update_count of StreamIncrementalUpdates. -/
structure SubEntry where
  live : Bool
  joined : Bool
  stopFlag : Bool
  count : Nat
deriving DecidableEq

/-- std::thread::joinable() for an entry present in `update_threads`:
true until the thread object is joined, independent of whether the thread
function has finished. -/
def joinable (e : SubEntry) : Bool := !e.joined

/-- Per-connection server state: the `update_threads` / `stop_signals`
maps keyed by instrument id, merged into one record per instrument. -/
abbrev ServerState := List (String × SubEntry)

/-- Events the read loop and its producer threads react to: the two
commands received by `stream->Read` plus the producer thread's own loop
iteration (one tick that emits one incremental) and its exit. -/
inductive ServerEvent where
  | subscribe (id : String)
  | unsubscribe (id : String)
  | producerTick (id : String)
  | producerExit (id : String)
deriving DecidableEq

/-- The rational 99.5 written as a raw reduced fraction. -/
def ratHalf199 : Rat := ⟨199, 2, by decide, by decide⟩

/-- The rational 100.5 written as a raw reduced fraction. -/
def ratHalf201 : Rat := ⟨201, 2, by decide, by decide⟩

/-- The rational 99.1 written as a raw reduced fraction. -/
def ratNinetyNinePointOne : Rat := ⟨991, 10, by decide, by decide⟩

/-- The rational 98.9 written as a raw reduced fraction. -/
def ratNinetyEightPointNine : Rat := ⟨989, 10, by decide, by decide⟩

/-- The rational 99.9 written as a raw reduced fraction. -/
def ratNinetyNinePointNine : Rat := ⟨999, 10, by decide, by decide⟩

/-- The rational 100.1 written as a raw reduced fraction. -/
def ratHundredPointOne : Rat := ⟨1001, 10, by decide, by decide⟩

/-- The fixture bid levels of the snapshot built at server lines 105-111:
(99.5, 100) and (99.0, 200). -/
def fixtureBids : List PriceLevel := [⟨ratHalf199, 100⟩, ⟨99, 200⟩]

/-- The fixture ask levels of the snapshot built at server lines 113-119:
(100.0, 150) and (100.5, 250). -/
def fixtureAsks : List PriceLevel := [⟨100, 150⟩, ⟨ratHalf201, 250⟩]

/-- The incremental update built by StreamIncrementalUpdates
(server lines 40-53) on iteration `k`: price change +0.1 on even
iterations and -0.1 on odd ones, so bid price 99.0 + change and ask price
100.0 - change (the sums written out as rational literals), bid quantity
200 + 10 k and ask quantity 150 + 5 k. -/
def tickMsg (id : String) (k : Nat) : ClientMsg :=
  ClientMsg.incremental id
    [⟨if k % 2 = 0 then ratNinetyNinePointOne else ratNinetyEightPointNine,
      ((200 + 10 * k : Nat) : Rat)⟩]
    [⟨if k % 2 = 0 then ratNinetyNinePointNine else ratHundredPointOne,
      ((150 + 5 * k : Nat) : Rat)⟩]

/-- The entry stored when a SUBSCRIBE starts a producer (server lines
130-132): stop signal initialized to false and a fresh thread started. -/
def freshEntry : SubEntry := { live := true, joined := false, stopFlag := false, count := 0 }

/-- One step of the per-connection server dynamics, from
MarketDataServiceImpl::Subscribe (lines 90-160) and
StreamIncrementalUpdates (lines 39-63).  Returns the new state and the
messages written to the stream by that step.
SUBSCRIBE (lines 96-136): if no entry exists or the entry is not
joinable, write the fixture snapshot and start a fresh producer;
otherwise do nothing.  UNSUBSCRIBE (lines 138-158): if a joinable entry
exists, set its stop flag; in every case write an empty snapshot as
acknowledgement.  A producer tick (lines 39-62) checks the stop flag and
liveness and writes one incremental; a producer exit ends the thread
function, leaving the thread object joinable. -/
def serverStep (s : ServerState) : ServerEvent → ServerState × List ClientMsg
  | .subscribe id =>
    match mapFind s id with
    | some e =>
      if joinable e then (s, [])
      else (omapSet s id freshEntry, [ClientMsg.snapshot id fixtureBids fixtureAsks])
    | none => (omapSet s id freshEntry, [ClientMsg.snapshot id fixtureBids fixtureAsks])
  | .unsubscribe id =>
    match mapFind s id with
    | some e =>
      if joinable e then
        (omapSet s id { e with stopFlag := true }, [ClientMsg.snapshot id [] []])
      else (s, [ClientMsg.snapshot id [] []])
    | none => (s, [ClientMsg.snapshot id [] []])
  | .producerTick id =>
    match mapFind s id with
    | some e =>
      if e.live && !e.stopFlag then
        (omapSet s id { e with count := e.count + 1 }, [tickMsg id e.count])
      else (s, [])
    | none => (s, [])
  | .producerExit id =>
    match mapFind s id with
    | some e => if e.live then (omapSet s id { e with live := false }, []) else (s, [])
    | none => (s, [])

/-- The read loop run over a sequence of events, collecting the stream
writes in order. -/
def runLoop : ServerState → List ServerEvent → ServerState × List ClientMsg
  | s, [] => (s, [])
  | s, e :: evs =>
    let step := serverStep s e
    let rest := runLoop step.1 evs
    (rest.1, step.2 ++ rest.2)

/-- Server state when a connection is accepted: both maps empty
(server lines 84-85). -/
def initServer : ServerState := []

/-- Connection teardown applied to one entry (server lines 166-175):
the stop flag is stored true for every entry of `stop_signals`, then
every joinable thread is joined; std::thread::join returns only once the
thread function has finished, after which the object is no longer
joinable. -/
def teardownEntry (e : SubEntry) : SubEntry :=
  let e1 := { e with stopFlag := true }
  if e1.joined then e1 else { e1 with joined := true, live := false }

/-- Connection teardown over the whole per-connection state. -/
def teardownAll (s : ServerState) : ServerState :=
  s.map (fun kv => (kv.1, teardownEntry kv.2))

/-- One call to `stream->Write` decomposed into its entry and its return.
Neither program takes a lock anywhere, so these are the only
synchronization-relevant actions of a writer thread. -/
inductive WriteInstr where
  | wbegin
  | wend
deriving DecidableEq

/-- Interleaving model of the threads sharing one connection's outbound
stream: each thread is its remaining instruction list paired with whether
it is currently inside a `stream->Write` call. -/
abbrev WriterConfig := List (List WriteInstr × Bool)

/-- One scheduler step running thread `i` for one instruction.  The
source contains no mutex or other guard around `stream->Write`
(server lines 56, 121, 152), so `wbegin` is always enabled. -/
def wstep (c : WriterConfig) (i : Nat) : WriterConfig :=
  match c.get? i with
  | some (instr :: rest, _) =>
    c.set i (rest, match instr with | .wbegin => true | .wend => false)
  | some ([], _) => c
  | none => c

/-- A schedule run from a configuration. -/
def wrun (c : WriterConfig) (sched : List Nat) : WriterConfig := sched.foldl wstep c

/-- Thread 0 is the read loop about to write a snapshot or
acknowledgement (server lines 121, 152); thread 1 is a producer thread
about to write an incremental update (server line 56). -/
def initWriters : WriterConfig :=
  [([WriteInstr.wbegin, WriteInstr.wend], false), ([WriteInstr.wbegin, WriteInstr.wend], false)]

/-- The number of threads currently inside `stream->Write`. -/
def inWriteCount (c : WriterConfig) : Nat := (c.map (fun t => t.2)).count true

/-- The four actions of the UNSUBSCRIBE/producer race on one instrument:
the producer's stop-flag check at the top of its loop (server line 39),
the read loop's store of the stop flag (line 142), the read loop's write
of the acknowledgement (line 152), and the producer's write of the
incremental it built after its check passed (line 56).  The check and
the write are separate actions of the producer thread: nothing in the
source re-checks the flag or excludes other writers between them. -/
inductive RaceInstr where
  | checkStop
  | storeStop
  | writeAck
  | writeInc
deriving DecidableEq

/-- Interleaving state of the read loop processing UNSUBSCRIBE "A"
concurrently with the producer thread for "A": the shared atomic stop
flag, each thread's remaining actions, and the messages written to the
stream in order. -/
structure RaceConfig where
  stopFlag : Bool
  reader : List RaceInstr
  producer : List RaceInstr
  out : List ClientMsg
deriving DecidableEq

/-- Semantics of one action: a failed stop check ends the producer loop
(dropping the rest of its actions), a passed one proceeds; the store
raises the flag; each write appends its message to the stream. -/
def runInstr (flag : Bool) (prog : List RaceInstr) (out : List ClientMsg) :
    Bool × List RaceInstr × List ClientMsg :=
  match prog with
  | [] => (flag, [], out)
  | RaceInstr.checkStop :: rest => if flag then (flag, [], out) else (flag, rest, out)
  | RaceInstr.storeStop :: rest => (true, rest, out)
  | RaceInstr.writeAck :: rest => (flag, rest, out ++ [ClientMsg.snapshot "A" [] []])
  | RaceInstr.writeInc :: rest => (flag, rest, out ++ [tickMsg "A" 0])

/-- One scheduler step: thread 0 is the read loop, any other index the
producer. -/
def raceStep (c : RaceConfig) (i : Nat) : RaceConfig :=
  if i = 0 then
    let r := runInstr c.stopFlag c.reader c.out
    { stopFlag := r.1, reader := r.2.1, producer := c.producer, out := r.2.2 }
  else
    let r := runInstr c.stopFlag c.producer c.out
    { stopFlag := r.1, reader := c.reader, producer := r.2.1, out := r.2.2 }

/-- A schedule run from a configuration. -/
def raceRun (c : RaceConfig) (sched : List Nat) : RaceConfig := sched.foldl raceStep c

/-- Start of the race: the read loop has just read UNSUBSCRIBE "A" and
is about to store the stop flag and write the acknowledgement; the
producer is at the top of its loop on iteration 0, about to check the
flag and write its incremental. -/
def raceInit : RaceConfig :=
  { stopFlag := false,
    reader := [RaceInstr.storeStop, RaceInstr.writeAck],
    producer := [RaceInstr.checkStop, RaceInstr.writeInc],
    out := [] }

theorem applyChanges_sorted (us : List PriceLevel) (b : Side) (hb : MapSorted b) :
    MapSorted (applyChanges b us) := by
  induction us generalizing b with
  | nil => simpa [applyChanges] using hb
  | cons u us ih =>
    have hstep : MapSorted (if 0 < u.quantity then mapSet b u.price u.quantity
        else mapErase b u.price) := by
      by_cases hq : 0 < u.quantity
      · simpa [hq] using mapSet_sorted u.price u.quantity hb
      · simpa [hq] using mapErase_sorted u.price hb
    simpa [applyChanges, List.foldl_cons] using ih _ hstep

theorem find_applyChanges_step (b : Side) (u : PriceLevel) (p : Rat) (hb : MapSorted b) :
    mapFind (if 0 < u.quantity then mapSet b u.price u.quantity else mapErase b u.price) p
      = if u.price = p then (if 0 < u.quantity then some u.quantity else none)
        else mapFind b p := by
  by_cases hq : 0 < u.quantity
  · by_cases hp : u.price = p
    · subst hp
      simp [hq, find_mapSet_self]
    · have hp2 : p ≠ u.price := fun h => hp h.symm
      simp [hq, hp, find_mapSet_ne _ _ _ _ hp2]
  · by_cases hp : u.price = p
    · subst hp
      simp [hq, find_mapErase_self _ hb]
    · have hp2 : p ≠ u.price := fun h => hp h.symm
      simp [hq, hp, find_mapErase_ne _ _ _ hp2]

theorem find_applyChanges (us : List PriceLevel) (b : Side) (p : Rat) (hb : MapSorted b) :
    mapFind (applyChanges b us) p = specLastChange us p (mapFind b p) := by
  induction us generalizing b with
  | nil => simp [applyChanges, specLastChange]
  | cons u us ih =>
    have hstep : MapSorted (if 0 < u.quantity then mapSet b u.price u.quantity
        else mapErase b u.price) := by
      by_cases hq : 0 < u.quantity
      · simpa [hq] using mapSet_sorted u.price u.quantity hb
      · simpa [hq] using mapErase_sorted u.price hb
    have h1 := ih _ hstep
    calc mapFind (applyChanges b (u :: us)) p
        = mapFind (applyChanges (if 0 < u.quantity then mapSet b u.price u.quantity
            else mapErase b u.price) us) p := by
          simp [applyChanges, List.foldl_cons]
      _ = specLastChange us p (mapFind (if 0 < u.quantity then mapSet b u.price u.quantity
            else mapErase b u.price) p) := h1
      _ = specLastChange (u :: us) p (mapFind b p) := by
          rw [find_applyChanges_step b u p hb]
          simp [specLastChange, List.foldl_cons]

theorem foldlSet_pos (ls : List PriceLevel) (b : Side)
    (hb : ∀ x ∈ b, (0 : Rat) < x.2) (hl : ∀ l ∈ ls, (0 : Rat) < l.quantity) :
    ∀ x ∈ ls.foldl (fun b l => mapSet b l.price l.quantity) b, (0 : Rat) < x.2 := by
  induction ls generalizing b with
  | nil => simpa using hb
  | cons l ls ih =>
    intro x hx
    have hb2 : ∀ y ∈ mapSet b l.price l.quantity, (0 : Rat) < y.2 := by
      intro y hy
      rcases mem_mapSet hy with h | h
      · have := hl l (by simp)
        simpa [h] using this
      · exact hb y h
    have hl2 : ∀ w ∈ ls, (0 : Rat) < w.quantity := fun w hw => hl w (by simp [hw])
    exact ih _ hb2 hl2 x (by simpa [List.foldl_cons] using hx)

theorem buildSide_pos (ls : List PriceLevel) (hl : ∀ l ∈ ls, (0 : Rat) < l.quantity) :
    ∀ x ∈ buildSide ls, (0 : Rat) < x.2 :=
  foldlSet_pos ls [] (by simp) hl

theorem applyChanges_pos (us : List PriceLevel) (b : Side)
    (hb : ∀ x ∈ b, (0 : Rat) < x.2) :
    ∀ x ∈ applyChanges b us, (0 : Rat) < x.2 := by
  induction us generalizing b with
  | nil => simpa [applyChanges] using hb
  | cons u us ih =>
    intro x hx
    have hb2 : ∀ y ∈ (if 0 < u.quantity then mapSet b u.price u.quantity
        else mapErase b u.price), (0 : Rat) < y.2 := by
      intro y hy
      by_cases hq : 0 < u.quantity
      · rw [if_pos hq] at hy
        rcases mem_mapSet hy with h | h
        · simpa [h] using hq
        · exact hb y h
      · rw [if_neg hq] at hy
        exact hb y (List.Sublist.mem hy (mapErase_sublist b u.price))
    exact ih _ hb2 x (by simpa [applyChanges, List.foldl_cons] using hx)

theorem sidePos_iff (b : Side) : sidePos b = true ↔ ∀ x ∈ b, (0 : Rat) < x.2 := by
  simp [sidePos]

theorem booksPos_iff (m : List (String × Side)) :
    booksPos m = true ↔ ∀ kv ∈ m, sidePos kv.2 = true := by
  simp [booksPos]

theorem levelsPos_iff (ls : List PriceLevel) :
    levelsPos ls = true ↔ ∀ l ∈ ls, (0 : Rat) < l.quantity := by
  simp [levelsPos]

theorem sideOf_pos {m : List (String × Side)} (hm : booksPos m = true) (id : String) :
    ∀ x ∈ (mapFind m id).getD [], (0 : Rat) < x.2 := by
  cases hf : mapFind m id with
  | none => simp
  | some b =>
    have hmem := find_mem hf
    have := (booksPos_iff m).mp hm (id, b) hmem
    simpa [hf] using (sidePos_iff b).mp this

theorem booksPos_omapSet {m : List (String × Side)} {id : String} {b : Side}
    (hm : booksPos m = true) (hb : ∀ x ∈ b, (0 : Rat) < x.2) :
    booksPos (omapSet m id b) = true := by
  rw [booksPos_iff]
  intro kv hkv
  rcases mem_omapSet hkv with h | h
  · rw [h]
    exact (sidePos_iff b).mpr hb
  · exact (booksPos_iff m).mp hm kv h

theorem applyUpdate_pos (st : ClientState) (m : ClientMsg)
    (hst : clientPos st = true) (hm : msgPos m = true) :
    clientPos (applyUpdate st m) = true := by
  have hbids : booksPos st.bids = true := by
    have := hst
    simp only [clientPos, Bool.and_eq_true] at this
    exact this.1
  have hasks : booksPos st.asks = true := by
    have := hst
    simp only [clientPos, Bool.and_eq_true] at this
    exact this.2
  cases m with
  | snapshot id bids asks =>
    have hlb : levelsPos bids = true := by
      simp only [msgPos, Bool.and_eq_true] at hm
      exact hm.1
    have hla : levelsPos asks = true := by
      simp only [msgPos, Bool.and_eq_true] at hm
      exact hm.2
    simp only [applyUpdate, applySnapshot, clientPos, Bool.and_eq_true]
    constructor
    · exact booksPos_omapSet hbids (buildSide_pos bids ((levelsPos_iff bids).mp hlb))
    · exact booksPos_omapSet hasks (buildSide_pos asks ((levelsPos_iff asks).mp hla))
  | incremental id bus aus =>
    simp only [applyUpdate, applyIncremental, clientPos, Bool.and_eq_true]
    constructor
    · exact booksPos_omapSet hbids (applyChanges_pos bus _ (sideOf_pos hbids id))
    · exact booksPos_omapSet hasks (applyChanges_pos aus _ (sideOf_pos hasks id))

/-- Claim C1: applying one incremental update message to an instrument's
order book applies the changed levels of each side in message order; on
any price, the last entry for that price decides the outcome (present
with exactly the given quantity when it is positive, absent when it is
zero), prices not mentioned keep their previous lookup result, and a
zero-quantity entry for an absent price leaves the book unchanged. -/
theorem c1_incremental_apply (st : ClientState) (id : String) (bus aus : List PriceLevel)
    (p : Rat)
    (hb : MapSorted ((mapFind st.bids id).getD []))
    (ha : MapSorted ((mapFind st.asks id).getD [])) :
    mapFind ((mapFind (applyUpdate st (.incremental id bus aus)).bids id).getD []) p
        = specLastChange bus p (mapFind ((mapFind st.bids id).getD []) p)
    ∧ mapFind ((mapFind (applyUpdate st (.incremental id bus aus)).asks id).getD []) p
        = specLastChange aus p (mapFind ((mapFind st.asks id).getD []) p)
    ∧ (∀ b : Side, mapFind b p = none → applyChanges b [⟨p, 0⟩] = b) := by
  refine ⟨?_, ?_, ?_⟩
  · simp only [applyUpdate, applyIncremental]
    rw [find_omapSet_self, Option.getD_some]
    exact find_applyChanges bus _ p hb
  · simp only [applyUpdate, applyIncremental]
    rw [find_omapSet_self, Option.getD_some]
    exact find_applyChanges aus _ p ha
  · intro b hbnone
    have h0 : ¬ ((0 : Rat) < 0) := lt_irrefl 0
    simp [applyChanges, h0, mapErase_of_find_none hbnone]

/-- Witness for c1_incremental_apply at a concrete input. -/
theorem c1_incremental_apply_witness :
    MapSorted ((mapFind initClient.bids "A").getD [])
    ∧ MapSorted ((mapFind initClient.asks "A").getD [])
    ∧ (mapFind ((mapFind (applyUpdate initClient
          (.incremental "A" [⟨1, 2⟩] [])).bids "A").getD []) 1
        = specLastChange [⟨1, 2⟩] 1 (mapFind ((mapFind initClient.bids "A").getD []) 1)
      ∧ mapFind ((mapFind (applyUpdate initClient
          (.incremental "A" [⟨1, 2⟩] [])).asks "A").getD []) 1
        = specLastChange [] 1 (mapFind ((mapFind initClient.asks "A").getD []) 1)
      ∧ (∀ b : Side, mapFind b 1 = none → applyChanges b [⟨1, 0⟩] = b)) :=
  ⟨by decide, by decide,
    c1_incremental_apply initClient "A" [⟨1, 2⟩] [] 1 (by decide) (by decide)⟩

/-- Counterexample to claim C5 as stated: an incremental update for an
instrument with no order book state is not discarded — the client's
operator[] creates the books and the update is applied to them. -/
theorem c5_counterexample :
    mapFind initClient.bids "A" = none
    ∧ mapFind (applyUpdate initClient (.incremental "A" [⟨1, 5⟩] [])).bids "A"
        = some [(1, 5)] := by
  constructor
  · decide
  · decide

/-- Claim C5 as amended: an incremental update for an instrument with no
order book state creates fresh empty books for that instrument and
applies the changes to them (application is total, so no crash and no
connection teardown), leaving every other instrument's books unchanged. -/
theorem c5_amended (st : ClientState) (id : String) (bus aus : List PriceLevel)
    (hb : mapFind st.bids id = none) (ha : mapFind st.asks id = none) :
    mapFind (applyUpdate st (.incremental id bus aus)).bids id
        = some (applyChanges [] bus)
    ∧ mapFind (applyUpdate st (.incremental id bus aus)).asks id
        = some (applyChanges [] aus)
    ∧ ∀ id2, id2 ≠ id →
        mapFind (applyUpdate st (.incremental id bus aus)).bids id2 = mapFind st.bids id2
        ∧ mapFind (applyUpdate st (.incremental id bus aus)).asks id2 = mapFind st.asks id2 := by
  refine ⟨?_, ?_, fun id2 h => ⟨?_, ?_⟩⟩
  · simp [applyUpdate, applyIncremental, hb, find_omapSet_self]
  · simp [applyUpdate, applyIncremental, ha, find_omapSet_self]
  · simp [applyUpdate, applyIncremental, find_omapSet_ne _ _ _ _ h]
  · simp [applyUpdate, applyIncremental, find_omapSet_ne _ _ _ _ h]

/-- Witness for c5_amended at a concrete input. -/
theorem c5_amended_witness :
    mapFind initClient.bids "A" = none
    ∧ mapFind initClient.asks "A" = none
    ∧ (mapFind (applyUpdate initClient (.incremental "A" [⟨1, 5⟩] [])).bids "A"
          = some (applyChanges [] [⟨1, 5⟩])
      ∧ mapFind (applyUpdate initClient (.incremental "A" [⟨1, 5⟩] [])).asks "A"
          = some (applyChanges [] [])
      ∧ ∀ id2, id2 ≠ "A" →
          mapFind (applyUpdate initClient (.incremental "A" [⟨1, 5⟩] [])).bids id2
              = mapFind initClient.bids id2
          ∧ mapFind (applyUpdate initClient (.incremental "A" [⟨1, 5⟩] [])).asks id2
              = mapFind initClient.asks id2) :=
  ⟨by decide, by decide, c5_amended initClient "A" [⟨1, 5⟩] [] (by decide) (by decide)⟩

/-- Counterexample to claim C6 as stated: the snapshot branch copies
levels into the book without checking their quantity, so a snapshot
carrying a zero-quantity level leaves an entry with quantity ≤ 0 in the
book of the (initially invariant-satisfying) client state. -/
theorem c6_counterexample :
    clientPos initClient = true
    ∧ clientPos (applyUpdate initClient (.snapshot "A" [⟨1, 0⟩] [])) = false := by
  constructor
  · decide
  · decide

/-- Claim C6 as amended: after any sequence of applied messages, every
entry of every instrument's bid and ask side has quantity strictly
greater than 0, provided every applied snapshot carries only levels with
positive quantity; incremental updates need no proviso, since their
application itself guards on quantity > 0. -/
theorem c6_amended (st : ClientState) (msgs : List ClientMsg)
    (hst : clientPos st = true) (hmsgs : ∀ m ∈ msgs, msgPos m = true) :
    clientPos (msgs.foldl applyUpdate st) = true := by
  induction msgs generalizing st with
  | nil => simpa using hst
  | cons m msgs ih =>
    have h1 := applyUpdate_pos st m hst (hmsgs m (by simp))
    simpa [List.foldl_cons] using ih _ h1 (fun w hw => hmsgs w (by simp [hw]))

/-- Witness for c6_amended at a concrete input. -/
theorem c6_amended_witness :
    clientPos initClient = true
    ∧ (∀ m ∈ [ClientMsg.snapshot "A" [⟨1, 2⟩] [], ClientMsg.incremental "A" [⟨1, 0⟩] []],
        msgPos m = true)
    ∧ clientPos ([ClientMsg.snapshot "A" [⟨1, 2⟩] [],
        ClientMsg.incremental "A" [⟨1, 0⟩] []].foldl applyUpdate initClient) = true :=
  ⟨by decide, by decide,
    c6_amended initClient [ClientMsg.snapshot "A" [⟨1, 2⟩] [],
      ClientMsg.incremental "A" [⟨1, 0⟩] []] (by decide) (by decide)⟩

/-- Claim C7: applying a snapshot replaces both sides of that
instrument's book wholesale with the snapshot's levels regardless of the
prior contents, and applying the same snapshot twice in succession yields
exactly the state of applying it once. -/
theorem c7_snapshot_idempotent (st : ClientState) (id : String) (bids asks : List PriceLevel) :
    applyUpdate (applyUpdate st (.snapshot id bids asks)) (.snapshot id bids asks)
      = applyUpdate st (.snapshot id bids asks)
    ∧ mapFind (applyUpdate st (.snapshot id bids asks)).bids id = some (buildSide bids)
    ∧ mapFind (applyUpdate st (.snapshot id bids asks)).asks id = some (buildSide asks) := by
  refine ⟨?_, find_omapSet_self _ _ _, find_omapSet_self _ _ _⟩
  simp [applyUpdate, applySnapshot, omapSet_omapSet_self]

/-- Claim C10: processing the unsubscribe acknowledgement — a snapshot
with empty bid and ask sequences — leaves that instrument's entry present
in both outer maps with both sides equal to the empty map, and leaves
every other instrument's books unchanged. -/
theorem c10_empty_snapshot_ack (st : ClientState) (id id2 : String) :
    mapFind (applyUpdate st (.snapshot id [] [])).bids id = some []
    ∧ mapFind (applyUpdate st (.snapshot id [] [])).asks id = some []
    ∧ (id2 ≠ id →
        mapFind (applyUpdate st (.snapshot id [] [])).bids id2 = mapFind st.bids id2
        ∧ mapFind (applyUpdate st (.snapshot id [] [])).asks id2 = mapFind st.asks id2) := by
  refine ⟨?_, ?_, fun h => ⟨?_, ?_⟩⟩
  · simpa [applyUpdate, applySnapshot, buildSide] using find_omapSet_self st.bids id []
  · simpa [applyUpdate, applySnapshot, buildSide] using find_omapSet_self st.asks id []
  · simp [applyUpdate, applySnapshot, find_omapSet_ne _ _ _ _ h]
  · simp [applyUpdate, applySnapshot, find_omapSet_ne _ _ _ _ h]

/-- Witness for c10_empty_snapshot_ack at a concrete input. -/
theorem c10_empty_snapshot_ack_witness :
    ("B" : String) ≠ "A"
    ∧ (mapFind (applyUpdate initClient (.snapshot "A" [] [])).bids "B"
          = mapFind initClient.bids "B"
      ∧ mapFind (applyUpdate initClient (.snapshot "A" [] [])).asks "B"
          = mapFind initClient.asks "B") :=
  ⟨by decide, (c10_empty_snapshot_ack initClient "A" "B").2.2 (by decide)⟩

theorem find_omapSet_cases {β : Type} {m : List (String × β)} {i k : String} {v en : β}
    (h : mapFind (omapSet m i v) k = some en) :
    (k = i ∧ en = v) ∨ mapFind m k = some en := by
  by_cases hk : k = i
  · subst hk
    rw [find_omapSet_self] at h
    exact Or.inl ⟨rfl, (Option.some_inj.mp h).symm⟩
  · rw [find_omapSet_ne m i k v hk] at h
    exact Or.inr h

theorem serverStep_preserves_unjoined (s : ServerState) (e : ServerEvent)
    (h : ∀ id en, mapFind s id = some en → en.joined = false) :
    ∀ id en, mapFind (serverStep s e).1 id = some en → en.joined = false := by
  intro id en hen
  cases e with
  | subscribe i =>
    cases hf : mapFind s i with
    | none =>
      simp only [serverStep, hf] at hen
      rcases find_omapSet_cases hen with ⟨_, h2⟩ | h2
      · simp [h2, freshEntry]
      · exact h id en h2
    | some e0 =>
      by_cases hj : joinable e0
      · simp only [serverStep, hf, if_pos hj] at hen
        exact h id en hen
      · simp only [serverStep, hf, if_neg hj] at hen
        rcases find_omapSet_cases hen with ⟨_, h2⟩ | h2
        · simp [h2, freshEntry]
        · exact h id en h2
  | unsubscribe i =>
    cases hf : mapFind s i with
    | none =>
      simp only [serverStep, hf] at hen
      exact h id en hen
    | some e0 =>
      by_cases hj : joinable e0
      · simp only [serverStep, hf, if_pos hj] at hen
        rcases find_omapSet_cases hen with ⟨_, h2⟩ | h2
        · have := h i e0 hf
          simp [h2, this]
        · exact h id en h2
      · simp only [serverStep, hf, if_neg hj] at hen
        exact h id en hen
  | producerTick i =>
    cases hf : mapFind s i with
    | none =>
      simp only [serverStep, hf] at hen
      exact h id en hen
    | some e0 =>
      by_cases hg : e0.live && !e0.stopFlag
      · simp only [serverStep, hf, if_pos hg] at hen
        rcases find_omapSet_cases hen with ⟨_, h2⟩ | h2
        · have := h i e0 hf
          simp [h2, this]
        · exact h id en h2
      · simp only [serverStep, hf, if_neg hg] at hen
        exact h id en hen
  | producerExit i =>
    cases hf : mapFind s i with
    | none =>
      simp only [serverStep, hf] at hen
      exact h id en hen
    | some e0 =>
      by_cases hl : e0.live = true
      · simp only [serverStep, hf, hl, if_pos rfl] at hen
        rcases find_omapSet_cases hen with ⟨_, h2⟩ | h2
        · have := h i e0 hf
          simp [h2, this]
        · exact h id en h2
      · simp only [serverStep, hf, hl] at hen
        exact h id en hen

theorem runLoop_preserves_unjoined (evs : List ServerEvent) (s : ServerState)
    (h : ∀ id en, mapFind s id = some en → en.joined = false) :
    ∀ id en, mapFind (runLoop s evs).1 id = some en → en.joined = false := by
  induction evs generalizing s with
  | nil => exact h
  | cons e evs ih =>
    intro id en hen
    exact ih (serverStep s e).1 (serverStep_preserves_unjoined s e h) id en hen

/-- Claim C2 evaluated at its failing input: after SUBSCRIBE "A",
UNSUBSCRIBE "A", and the producer's exit, a second SUBSCRIBE "A" emits no
snapshot and starts no producer — the whole run writes exactly one data
snapshot plus the unsubscribe acknowledgement, and the entry remains not
live with its original count — because the thread object of the exited
producer is still joinable, so the code takes the already-streaming
branch.  The claim instead requires a second snapshot and a fresh
producer here. -/
theorem c2_code_eval :
    (runLoop initServer [.subscribe "A", .unsubscribe "A", .producerExit "A",
        .subscribe "A"]).2
      = [ClientMsg.snapshot "A" fixtureBids fixtureAsks, ClientMsg.snapshot "A" [] []]
    ∧ mapFind (runLoop initServer [.subscribe "A", .unsubscribe "A", .producerExit "A",
        .subscribe "A"]).1 "A"
      = some ⟨false, false, true, 0⟩ := by
  constructor
  · decide
  · decide

/-- Claim C3: a SUBSCRIBE for an instrument whose entry exists with a
live, unjoined producer thread is a no-op — no second snapshot is
written and the state (hence the producer) is unchanged. -/
theorem c3_resubscribe_noop (s : ServerState) (id : String) (e : SubEntry)
    (hf : mapFind s id = some e) (hj : e.joined = false) (_hl : e.live = true) :
    serverStep s (.subscribe id) = (s, []) := by
  simp [serverStep, hf, joinable, hj]

/-- Witness for c3_resubscribe_noop at a concrete input. -/
theorem c3_resubscribe_noop_witness :
    mapFind [("A", (⟨true, false, false, 0⟩ : SubEntry))] "A" = some ⟨true, false, false, 0⟩
    ∧ (⟨true, false, false, 0⟩ : SubEntry).joined = false
    ∧ (⟨true, false, false, 0⟩ : SubEntry).live = true
    ∧ serverStep [("A", (⟨true, false, false, 0⟩ : SubEntry))] (.subscribe "A")
        = ([("A", ⟨true, false, false, 0⟩)], []) :=
  ⟨by decide, by decide, by decide,
    c3_resubscribe_noop [("A", ⟨true, false, false, 0⟩)] "A" ⟨true, false, false, 0⟩
      (by decide) (by decide) (by decide)⟩

/-- Supporting facts about the UNSUBSCRIBE handler in the serialized
step model: it writes exactly the one acknowledgement message (the empty
snapshot for that instrument) whether or not a producer entry exists;
when an unjoined producer entry exists its stop flag is set, after which
a producer tick that starts after the flag store writes nothing; an
absent entry leaves the state untouched; and entries of other
instruments are unchanged.  The cross-thread ordering of the
acknowledgement against a producer write already in flight is outside
this serialized model and is settled by the race model below. -/
theorem c4_unsubscribe_ack (s : ServerState) (id : String) :
    (serverStep s (.unsubscribe id)).2 = [ClientMsg.snapshot id [] []]
    ∧ (∀ e : SubEntry, mapFind s id = some e → e.joined = false →
        mapFind (serverStep s (.unsubscribe id)).1 id = some { e with stopFlag := true }
        ∧ (serverStep (serverStep s (.unsubscribe id)).1 (.producerTick id)).2 = [])
    ∧ (mapFind s id = none → (serverStep s (.unsubscribe id)).1 = s)
    ∧ ∀ id2, id2 ≠ id →
        mapFind (serverStep s (.unsubscribe id)).1 id2 = mapFind s id2 := by
  refine ⟨?_, ?_, ?_, ?_⟩
  · cases hf : mapFind s id with
    | none => simp [serverStep, hf]
    | some e =>
      by_cases hj : joinable e
      · simp [serverStep, hf, hj]
      · simp [serverStep, hf, hj]
  · intro e hf hj
    have hjoin : joinable e = true := by simp [joinable, hj]
    have hstate : (serverStep s (.unsubscribe id)).1
        = omapSet s id { e with stopFlag := true } := by
      simp [serverStep, hf, hjoin]
    constructor
    · rw [hstate]
      exact find_omapSet_self _ _ _
    · rw [hstate]
      simp [serverStep, find_omapSet_self]
  · intro hf
    simp [serverStep, hf]
  · intro id2 h2
    cases hf : mapFind s id with
    | none => simp [serverStep, hf]
    | some e =>
      by_cases hj : joinable e
      · simp [serverStep, hf, hj, find_omapSet_ne _ _ _ _ h2]
      · simp [serverStep, hf, hj]

/-- Concrete instance of the UNSUBSCRIBE handler facts. -/
theorem c4_unsubscribe_ack_witness :
    mapFind [("A", (⟨true, false, false, 0⟩ : SubEntry))] "A" = some ⟨true, false, false, 0⟩
    ∧ (⟨true, false, false, 0⟩ : SubEntry).joined = false
    ∧ (mapFind (serverStep [("A", (⟨true, false, false, 0⟩ : SubEntry))]
          (.unsubscribe "A")).1 "A"
        = some { (⟨true, false, false, 0⟩ : SubEntry) with stopFlag := true }
      ∧ (serverStep (serverStep [("A", (⟨true, false, false, 0⟩ : SubEntry))]
          (.unsubscribe "A")).1 (.producerTick "A")).2 = []) :=
  ⟨by decide, by decide,
    (c4_unsubscribe_ack [("A", ⟨true, false, false, 0⟩)] "A").2.1
      ⟨true, false, false, 0⟩ (by decide) (by decide)⟩

/-- Claim C4 evaluated at its failing input: the producer for "A" passes
its stop check (server line 39) just before the read loop processes
UNSUBSCRIBE "A"; the loop then stores the stop flag (line 142) and
writes the acknowledgement (line 152); the producer then performs its
pending stream write (line 56).  Under that schedule the stream carries
an incremental for "A" after the acknowledgement even though the stop
flag was already set, because nothing in the source re-checks the flag
between the producer's check and its write and no write mutual exclusion
exists.  The claim instead requires the acknowledgement to precede any
further message for that instrument. -/
theorem c4_code_eval :
    (raceRun raceInit [1, 0, 0, 1]).out
        = [ClientMsg.snapshot "A" [] [], tickMsg "A" 0]
    ∧ (raceRun raceInit [1, 0, 0, 1]).stopFlag = true := by
  constructor
  · decide
  · decide

/-- Claim C8 evaluated on the code: the source takes no lock around any
stream write, so the schedule that runs the read loop's write entry and
then a producer's write entry reaches a configuration with two threads
simultaneously inside a write to the shared stream; after the first step
alone only one thread is writing.  The claim instead requires that one
write complete before another begins. -/
theorem c8_code_eval :
    inWriteCount (wrun initWriters [0]) = 1
    ∧ inWriteCount (wrun initWriters [0, 1]) = 2 := by
  constructor
  · decide
  · decide

/-- Claim C9: whatever command and producer events the read loop
processed, connection teardown leaves every subscription entry with its
stop flag set, its producer thread not live, and its thread object
joined — zero live producer threads remain. -/
theorem c9_teardown_no_live (evs : List ServerEvent) (id : String) (e : SubEntry)
    (h : mapFind (teardownAll (runLoop initServer evs).1) id = some e) :
    e.stopFlag = true ∧ e.live = false ∧ e.joined = true := by
  rw [teardownAll, find_mapValues] at h
  cases hf : mapFind (runLoop initServer evs).1 id with
  | none => simp [hf] at h
  | some e0 =>
    rw [hf] at h
    rw [Option.map_some'] at h
    have he : e = teardownEntry e0 := (Option.some_inj.mp h).symm
    have hj : e0.joined = false :=
      runLoop_preserves_unjoined evs initServer (by intro i en hen; simp [mapFind] at hen)
        id e0 hf
    rw [he]
    simp [teardownEntry, hj]

/-- Witness for c9_teardown_no_live at a concrete input. -/
theorem c9_teardown_no_live_witness :
    mapFind (teardownAll (runLoop initServer [.subscribe "A"]).1) "A"
        = some ⟨false, true, true, 0⟩
    ∧ ((⟨false, true, true, 0⟩ : SubEntry).stopFlag = true
      ∧ (⟨false, true, true, 0⟩ : SubEntry).live = false
      ∧ (⟨false, true, true, 0⟩ : SubEntry).joined = true) :=
  ⟨by decide, c9_teardown_no_live [.subscribe "A"] "A" ⟨false, true, true, 0⟩ (by decide)⟩
